import Mathlib

/-!
Verification of the `roff` crate (src/lib.rs): a library for building ROFF
documents. We embed the data model (`Inline`, `Line`, `Roff`, the builder)
and the rendering pipeline (`escape_inline`, `escape_apostrophes`,
`escape_leading_cc`, `escape_spaces`, `Line::render`, the document-level
entry points `render`, `to_writer`, `to_roff`) as pure Lean functions over
`List Char`, mirroring the Rust source, and prove the specification claims
about them.

Rust's `str::replace` with a one-character pattern is embedded as
`replace1`; with a two-character pattern (as in `escape_leading_cc`) as
`replace2`, both scanning left to right without rescanning the inserted
replacement, exactly like `str::replace`.
-/

namespace Roffs

/-- Rust `str::replace` with a single-character pattern `p`, replacement `r`. -/
def replace1 (p : Char) (r : List Char) : List Char → List Char
  | [] => []
  | c :: rest => (if c = p then r else [c]) ++ replace1 p r rest

/-- Rust `str::replace` with a two-character pattern `p₁p₂`, replacement `r`:
matches are found left to right in the original string and are
non-overlapping; the replacement text is not rescanned. -/
def replace2 (p₁ p₂ : Char) (r : List Char) : List Char → List Char
  | [] => []
  | [c] => [c]
  | c :: d :: rest =>
      if c = p₁ ∧ d = p₂ then r ++ replace2 p₁ p₂ r rest
      else c :: replace2 p₁ p₂ r (d :: rest)

/-- `const APOSTROPHE: &str = r"\*(Aq";` -/
def APOSTROPHE : List Char := "\\*(Aq".data

/-- `const APOSTROPHE_PREABMLE` (sic): the two preamble lines defining the
`Aq` string register. In the Rust raw string, `\n` is a literal backslash
followed by `n`; the real newlines separate and terminate the two lines. -/
def APOSTROPHE_PREABMLE : List Char :=
  ".ie \\n(.g .ds Aq \\(aq\n.el .ds Aq '\n".data

/-- `enum Apostrophes { Handle, DontHandle }` -/
inductive Apostrophes where
  | Handle
  | DontHandle
deriving DecidableEq

/-- `pub enum Inline`: a part of a text line. -/
inductive Inline where
  | Roman (text : List Char)
  | Italic (text : List Char)
  | Bold (text : List Char)
  | LineBreak
deriving DecidableEq

/-- `pub(crate) enum Line`: a control line or a text line. -/
inductive Line where
  | Control (name : List Char) (args : List (List Char))
  | Text (inlines : List Inline)
deriving DecidableEq

/-- `fn starts_with_cc`: does the line start with a control character? -/
def starts_with_cc (line : List Char) : Bool :=
  match line with
  | '.' :: _ => true
  | '\'' :: _ => true
  | _ => false

/-- `fn escape_spaces`: quote a control-line argument iff it contains a space. -/
def escape_spaces (w : List Char) : List Char :=
  if ' ' ∈ w then '"' :: (w ++ ['"']) else w

/-- `fn escape_inline`: `text.replace(r"\", r"\\").replace('-', r"\-")`. -/
def escape_inline (text : List Char) : List Char :=
  replace1 '-' "\\-".data (replace1 '\\' "\\\\".data text)

/-- `fn escape_apostrophes`: `text.replace('\'', APOSTROPHE)`. -/
def escape_apostrophes (text : List Char) : List Char :=
  replace1 '\'' APOSTROPHE text

/-- `fn escape_leading_cc`: `s.replace("\n.", "\n\\&.").replace("\n'", "\n\\&'")`. -/
def escape_leading_cc (s : List Char) : List Char :=
  replace2 '\n' '\'' "\n\\&'".data (replace2 '\n' '.' "\n\\&.".data s)

/-- The first two escaping steps of the `Roman`/`Italic`/`Bold` arm of
`Line::render`: `escape_inline`, then `escape_apostrophes` when the policy
is `Handle`. -/
def inlineEscaped (p : Apostrophes) (text : List Char) : List Char :=
  match p with
  | .Handle => escape_apostrophes (escape_inline text)
  | .DontHandle => escape_inline text

/-- The escaped text of a `Roman`/`Italic`/`Bold` span as computed at the top
of that arm of `Line::render`: `escape_inline`, then `escape_apostrophes`
when the policy is `Handle`, then `escape_leading_cc`. -/
def escapedText (p : Apostrophes) (text : List Char) : List Char :=
  escape_leading_cc (inlineEscaped p text)

/-- The output written for one inline span inside `Line::render`'s loop,
given the `at_line_start` flag at that point. -/
def renderInline (p : Apostrophes) (atStart : Bool) : Inline → List Char
  | .LineBreak => if atStart then ".br\n".data else "\n.br\n".data
  | .Bold t => "\\fB".data ++ escapedText p t ++ "\\fR".data
  | .Italic t => "\\fI".data ++ escapedText p t ++ "\\fR".data
  | .Roman t =>
      let text := escapedText p t
      (if atStart && starts_with_cc text then "\\&".data else []) ++ text

/-- The loop of `Line::render`'s `Text` arm: `at_line_start` starts as the
given flag and is set to `false` after every span, `LineBreak` included. -/
def renderInlines (p : Apostrophes) : List Inline → Bool → List Char
  | [], _ => []
  | i :: rest, atStart => renderInline p atStart i ++ renderInlines p rest false

/-- The body of `Line::render` before the trailing `writeln!(out)?`. -/
def renderLineBody (p : Apostrophes) : Line → List Char
  | .Control name args =>
      '.' :: (name ++ (args.map (fun a => ' ' :: escape_spaces a)).flatten)
  | .Text inlines => renderInlines p inlines true

/-- `Line::render`: the body followed by the trailing newline. -/
def renderLine (p : Apostrophes) (l : Line) : List Char :=
  renderLineBody p l ++ ['\n']

/-- `pub struct Roff { lines: Vec<Line> }` -/
structure Roff where
  lines : List Line
deriving DecidableEq

/-- `Roff::default()`: the empty document. -/
def Roff.default : Roff := ⟨[]⟩

/-- `Roff::control`: append a control line. -/
def Roff.control (r : Roff) (name : List Char) (args : List (List Char)) : Roff :=
  ⟨r.lines ++ [Line.Control name args]⟩

/-- `Roff::text`: append a text line. -/
def Roff.text (r : Roff) (inlines : List Inline) : Roff :=
  ⟨r.lines ++ [Line.Text inlines]⟩

/-- The outcome of running a piece of writing code against a fallible
sink: it finishes in state `s`, returns the sink's error `e` to the caller
(the `?` operator), or aborts the process with a panic carrying the
sink's error (`.unwrap()` on a failed write). -/
inductive WOutcome (σ ε : Type) where
  | ok (s : σ)
  | error (e : ε)
  | panicked (e : ε)
deriving DecidableEq

/-- Sequencing: an error or a panic stops the remaining writes. -/
def WOutcome.bind {σ ε : Type} :
    WOutcome σ ε → (σ → WOutcome σ ε) → WOutcome σ ε
  | .ok s, f => f s
  | .error e, _ => .error e
  | .panicked e, _ => .panicked e

/-- One `write!(…)?` / `writeln!(…)?` call: a sink failure is returned to
the caller. -/
def writeTry {σ ε : Type} (wr : σ → List Char → Except ε σ)
    (chunk : List Char) (s : σ) : WOutcome σ ε :=
  match wr s chunk with
  | .ok s' => .ok s'
  | .error e => .error e

/-- The `write!(out, r"\&").unwrap()` call at src/lib.rs:265: a sink
failure panics instead of being returned. -/
def writeUnwrap {σ ε : Type} (wr : σ → List Char → Except ε σ)
    (chunk : List Char) (s : σ) : WOutcome σ ε :=
  match wr s chunk with
  | .ok s' => .ok s'
  | .error e => .panicked e

/-- The write calls of one iteration of `Line::render`'s span loop, at the
granularity of the source: one `writeln!`/`write!` per arm, except that a
guarded Roman span first performs the unwrapped `\&` write and then the
`write!` of its text. -/
def renderInlineW {σ ε : Type} (wr : σ → List Char → Except ε σ)
    (p : Apostrophes) (atStart : Bool) (i : Inline) (s : σ) : WOutcome σ ε :=
  match i with
  | .LineBreak =>
      writeTry wr (if atStart then ".br\n".data else "\n.br\n".data) s
  | .Bold t => writeTry wr ("\\fB".data ++ escapedText p t ++ "\\fR".data) s
  | .Italic t => writeTry wr ("\\fI".data ++ escapedText p t ++ "\\fR".data) s
  | .Roman t =>
      if atStart && starts_with_cc (escapedText p t) then
        (writeUnwrap wr "\\&".data s).bind
          (fun s' => writeTry wr (escapedText p t) s')
      else writeTry wr (escapedText p t) s

/-- The span loop of `Line::render`'s `Text` arm against a sink. -/
def renderInlinesW {σ ε : Type} (wr : σ → List Char → Except ε σ)
    (p : Apostrophes) : List Inline → Bool → σ → WOutcome σ ε
  | [], _, s => .ok s
  | i :: rest, atStart, s =>
      (renderInlineW wr p atStart i s).bind (renderInlinesW wr p rest false)

/-- The argument loop of `Line::render`'s `Control` arm against a sink:
one `write!` of a space and the (possibly quoted) argument each. -/
def writeArgs {σ ε : Type} (wr : σ → List Char → Except ε σ) :
    List (List Char) → σ → WOutcome σ ε
  | [], s => .ok s
  | a :: rest, s =>
      (writeTry wr (' ' :: escape_spaces a) s).bind (writeArgs wr rest)

/-- `Line::render` against a sink: the arm's writes followed by the
trailing `writeln!(out)?`. -/
def renderLineW {σ ε : Type} (wr : σ → List Char → Except ε σ)
    (p : Apostrophes) (l : Line) (s : σ) : WOutcome σ ε :=
  (match l with
   | .Control name args =>
       (writeTry wr ('.' :: name) s).bind (writeArgs wr args)
   | .Text inlines => renderInlinesW wr p inlines true s).bind
    (fun s' => writeTry wr ['\n'] s')

/-- The line loop of `Roff::to_writer` against a sink. -/
def writeLines {σ ε : Type} (wr : σ → List Char → Except ε σ)
    (p : Apostrophes) : List Line → σ → WOutcome σ ε
  | [], s => .ok s
  | l :: rest, s => (renderLineW wr p l s).bind (writeLines wr p rest)

/-- `Roff::to_writer`: write the preamble with `write_all(…)?`, then each
line via `Line::render` with apostrophe handling, at the source's
per-write granularity. -/
def Roff.to_writer {σ ε : Type} (wr : σ → List Char → Except ε σ) (s : σ)
    (r : Roff) : WOutcome σ ε :=
  (writeTry wr APOSTROPHE_PREABMLE s).bind
    (writeLines wr Apostrophes.Handle r.lines)

/-- The `Vec` sink used by `Roff::render` and `Roff::to_roff`: appending to
an in-memory buffer, which always succeeds (error type `Empty`). -/
def vecWrite : List Char → List Char → Except Empty (List Char) :=
  fun buf c => .ok (buf ++ c)

/-- `Roff::render`: `to_writer` into a fresh `Vec`; the `unwrap` can never
fire because `vecWrite` never fails. -/
def Roff.render (r : Roff) : List Char :=
  match Roff.to_writer vecWrite [] r with
  | .ok buf => buf
  | .error e => e.elim
  | .panicked e => e.elim

/-- `Roff::to_roff`: render each line with apostrophe handling off into a
`Vec`, with no preamble. -/
def Roff.to_roff (r : Roff) : List Char :=
  (r.lines.map (renderLine .DontHandle)).flatten

/-- `pub struct RoffBuilder { roff: Roff }` -/
structure RoffBuilder where
  roff : Roff
deriving DecidableEq

/-- `RoffBuilder::default()`. -/
def RoffBuilder.default : RoffBuilder := ⟨Roff.default⟩

/-- `RoffBuilder::control`: delegate to `Roff::control`, return the builder. -/
def RoffBuilder.control (b : RoffBuilder) (name : List Char)
    (args : List (List Char)) : RoffBuilder :=
  ⟨b.roff.control name args⟩

/-- `RoffBuilder::text`: delegate to `Roff::text`, return the builder. -/
def RoffBuilder.text (b : RoffBuilder) (inlines : List Inline) : RoffBuilder :=
  ⟨b.roff.text inlines⟩

/-- `RoffBuilder::build`: return the inner `Roff`. -/
def RoffBuilder.build (b : RoffBuilder) : Roff := b.roff

/-- The per-character escaping table stated by the spec for the inline
escaping stage: backslash doubles, hyphen becomes `\-`, and an apostrophe
becomes the `\*(Aq` register reference exactly when the policy is
`Handle`; every other character passes through. Stated from the spec's
words, to be compared with the composition of `str::replace` calls in the
source. -/
def escChar (p : Apostrophes) (c : Char) : List Char :=
  if c = '\\' then "\\\\".data
  else if c = '-' then "\\-".data
  else if c = '\'' then
    (match p with
     | .Handle => APOSTROPHE
     | .DontHandle => [c])
  else [c]

/-- The spec's description of step 3 of text escaping: scan the text once
and insert the zero-width marker `\&` between every newline and an
immediately following `.` or `'`. Stated from the spec's words, to be
compared with the two sequential `str::replace` calls of
`escape_leading_cc`. -/
def insertNewlineGuards : List Char → List Char
  | [] => []
  | [c] => [c]
  | c :: d :: rest =>
      if c = '\n' ∧ (d = '.' ∨ d = '\'') then
        c :: '\\' :: '&' :: d :: insertNewlineGuards rest
      else c :: insertNewlineGuards (d :: rest)

/-- A document whose own control lines spell out the apostrophe preamble:
`.ie \n(.g .ds Aq \(aq` and `.el .ds Aq '` (each `\n` being a literal
backslash and `n`). -/
def forgedRoff : Roff :=
  ⟨[Line.Control "ie".data ["\\n(.g".data, ".ds".data, "Aq".data, "\\(aq".data],
    Line.Control "el".data [".ds".data, "Aq".data, "'".data]]⟩

/-- The append operations of a build sequence: a control-line append or a
text-line append, applicable to either builder. -/
inductive BuildOp where
  | control (name : List Char) (args : List (List Char))
  | text (inlines : List Inline)

/-- Apply one append call to a `Roff` (the mutable builder). -/
def Roff.applyOp (r : Roff) : BuildOp → Roff
  | .control n a => r.control n a
  | .text i => r.text i

/-- Apply one append call to a `RoffBuilder` (the consuming builder). -/
def RoffBuilder.applyOp (b : RoffBuilder) : BuildOp → RoffBuilder
  | .control n a => b.control n a
  | .text i => b.text i

/-- A sink that counts its write calls and fails exactly on the second
one (index 1); with the preamble as write 0, the `\&` guard write of a
guarded leading Roman span is write 1. -/
def failSecondWrite : Nat → List Char → Except Unit Nat :=
  fun n _ => if n = 1 then Except.error () else Except.ok (n + 1)

/-- A document with one text line whose single Roman span starts with a
period, so `to_writer` reaches the unwrapped `\&` guard write. -/
def dotXRoff : Roff := ⟨[Line.Text [Inline.Roman ".x".data]]⟩

end Roffs

namespace Roffs

example : escape_inline "-".data = "\\-".data := by decide
example : escape_inline "\\x".data = "\\\\x".data := by decide
example : escape_inline "\\-".data = "\\\\\\-".data := by decide
example :
    escape_leading_cc "foo\n.bar\n'yo".data = "foo\n\\&.bar\n\\&'yo".data := by
  decide
example : renderLine .DontHandle (Line.Text [Inline.Roman "foo".data])
    = "foo\n".data := by decide
example : renderLine .DontHandle (Line.Text [Inline.Roman "foo-bar".data])
    = "foo\\-bar\n".data := by decide
example : renderLine .DontHandle (Line.Text [Inline.Italic "foo".data])
    = "\\fIfoo\\fR\n".data := by decide
example : renderLine .DontHandle (Line.Text [Inline.Roman ".roman".data])
    = "\\&.roman\n".data := by decide
example : renderLine .DontHandle (Line.Text [Inline.Roman "foo\n.roman".data])
    = "foo\n\\&.roman\n".data := by decide
example :
    renderLine .DontHandle (Line.Text
      [Inline.Roman "roman".data, Inline.LineBreak, Inline.Roman "more".data])
    = "roman\n.br\nmore\n".data := by decide
example :
    renderLine .DontHandle (Line.Control "foo".data
      ["bar".data, "foo and bar".data])
    = ".foo bar \"foo and bar\"\n".data := by decide

end Roffs

namespace Roffs

/-- `replace1` distributes over list append. -/
theorem replace1_append (p : Char) (r a b : List Char) :
    replace1 p r (a ++ b) = replace1 p r a ++ replace1 p r b := by
  induction a with
  | nil => rfl
  | cons c a ih => simp [replace1, ih, List.append_assoc]

/-- The inline escaping stage of the empty text is empty. -/
theorem inlineEscaped_nil (p : Apostrophes) : inlineEscaped p [] = [] := by
  cases p <;> rfl

/-- The inline escaping stage processes a text character by character. -/
theorem inlineEscaped_cons (p : Apostrophes) (c : Char) (t : List Char) :
    inlineEscaped p (c :: t) = inlineEscaped p [c] ++ inlineEscaped p t := by
  cases p <;>
    simp [inlineEscaped, escape_inline, escape_apostrophes, replace1,
      replace1_append]

/-- On a single character, the source's inline escaping stage agrees with
the spec's per-character table. -/
theorem inlineEscaped_single (p : Apostrophes) (c : Char) :
    inlineEscaped p [c] = escChar p c := by
  by_cases h1 : c = '\\'
  · subst h1; cases p <;> simp [escChar] <;> decide
  · by_cases h2 : c = '-'
    · subst h2; cases p <;> simp [escChar] <;> decide
    · by_cases h3 : c = '\''
      · subst h3; cases p <;> simp [escChar] <;> decide
      · cases p <;>
          simp [inlineEscaped, escape_inline, escape_apostrophes, replace1,
            escChar, h1, h2, h3]

end Roffs

namespace Roffs

/-- A head character differing from the pattern's first character is kept
by `replace2`, which then goes on with the tail. -/
theorem replace2_cons_ne (p₁ p₂ c : Char) (r l : List Char) (h : c ≠ p₁) :
    replace2 p₁ p₂ r (c :: l) = c :: replace2 p₁ p₂ r l := by
  cases l with
  | nil => rfl
  | cons d rest =>
      rw [replace2, if_neg]
      intro hc
      exact h hc.1

/-- A head pair that does not match the pattern is kept by `replace2`. -/
theorem replace2_cons₂_ne (p₁ p₂ c d : Char) (r rest : List Char)
    (h : ¬(c = p₁ ∧ d = p₂)) :
    replace2 p₁ p₂ r (c :: d :: rest) = c :: replace2 p₁ p₂ r (d :: rest) := by
  rw [replace2, if_neg h]

/-- A head pair matching the pattern is replaced by `replace2`, which then
goes on after the pair without rescanning the replacement. -/
theorem replace2_cons₂_eq (p₁ p₂ : Char) (r rest : List Char) :
    replace2 p₁ p₂ r (p₁ :: p₂ :: rest) = r ++ replace2 p₁ p₂ r rest := by
  rw [replace2, if_pos ⟨rfl, rfl⟩]

/-- `replace2` maps a nonempty list to a list whose head is either the
original head or the pattern's first character. -/
theorem replace2_head (p₁ p₂ c : Char) (r l : List Char) (hr : r.head? = some p₁) :
    ∃ tl, replace2 p₁ p₂ r (c :: l) = c :: tl ∨
      replace2 p₁ p₂ r (c :: l) = p₁ :: tl := by
  cases l with
  | nil => exact ⟨[], Or.inl rfl⟩
  | cons d rest =>
      by_cases h : c = p₁ ∧ d = p₂
      · obtain ⟨hc, hd⟩ := h
        subst hc hd
        rw [replace2_cons₂_eq]
        cases r with
        | nil => simp at hr
        | cons x xs =>
            simp only [List.head?_cons, Option.some.injEq] at hr
            subst hr
            exact ⟨_, Or.inr rfl⟩
      · rw [replace2_cons₂_ne _ _ _ _ _ _ h]
        exact ⟨replace2 p₁ p₂ r (d :: rest), Or.inl rfl⟩

/-- The second replacement pass of `escape_leading_cc` walks over the text
inserted by the first pass without finding a match in it. -/
theorem replace2_after_dot_guard (X : List Char) :
    replace2 '\n' '\'' "\n\\&'".data ("\n\\&.".data ++ X)
      = '\n' :: '\\' :: '&' :: '.' :: replace2 '\n' '\'' "\n\\&'".data X := by
  show replace2 '\n' '\'' "\n\\&'".data ('\n' :: '\\' :: '&' :: '.' :: X) = _
  rw [replace2_cons₂_ne '\n' '\'' '\n' '\\' "\n\\&'".data ('&' :: '.' :: X)
      (by decide),
    replace2_cons_ne '\n' '\'' '\\' "\n\\&'".data ('&' :: '.' :: X) (by decide),
    replace2_cons_ne '\n' '\'' '&' "\n\\&'".data ('.' :: X) (by decide),
    replace2_cons_ne '\n' '\'' '.' "\n\\&'".data X (by decide)]

/-- The two sequential `str::replace` calls of `escape_leading_cc` compute
exactly the spec's single left-to-right scan that inserts `\&` between a
newline and a following `.` or `'`. -/
theorem escape_leading_cc_eq_insertNewlineGuards (l : List Char) :
    escape_leading_cc l = insertNewlineGuards l := by
  induction l using insertNewlineGuards.induct with
  | case1 => rfl
  | case2 c => rfl
  | case3 c d rest h ih =>
      obtain ⟨hc, hd⟩ := h
      subst hc
      rcases hd with hd | hd
      · subst hd
        rw [insertNewlineGuards, if_pos ⟨rfl, Or.inl rfl⟩]
        unfold escape_leading_cc at ih ⊢
        rw [replace2_cons₂_eq '\n' '.' "\n\\&.".data rest,
          replace2_after_dot_guard (replace2 '\n' '.' "\n\\&.".data rest), ih]
      · subst hd
        rw [insertNewlineGuards, if_pos ⟨rfl, Or.inr rfl⟩]
        unfold escape_leading_cc at ih ⊢
        rw [replace2_cons₂_ne '\n' '.' '\n' '\'' "\n\\&.".data rest (by decide),
          replace2_cons_ne '\n' '.' '\'' "\n\\&.".data rest (by decide),
          replace2_cons₂_eq '\n' '\''
            "\n\\&'".data (replace2 '\n' '.' "\n\\&.".data rest)]
        show '\n' :: '\\' :: '&' :: '\'' ::
          replace2 '\n' '\'' "\n\\&'".data (replace2 '\n' '.' "\n\\&.".data rest)
          = _
        rw [ih]
  | case4 c d rest h ih =>
      rw [insertNewlineGuards, if_neg h]
      unfold escape_leading_cc at ih ⊢
      rw [replace2_cons₂_ne '\n' '.' c d "\n\\&.".data rest
        (fun hp => h ⟨hp.1, Or.inl hp.2⟩)]
      by_cases hc : c = '\n'
      · subst hc
        have hd : d ≠ '\'' := fun hd => h ⟨rfl, Or.inr hd⟩
        obtain ⟨tl, htl | htl⟩ :=
          replace2_head '\n' '.' d "\n\\&.".data rest (by decide)
        · rw [htl] at ih ⊢
          rw [replace2_cons₂_ne '\n' '\'' '\n' d "\n\\&'".data tl
            (fun hp => hd hp.2), ih]
        · rw [htl] at ih ⊢
          rw [replace2_cons₂_ne '\n' '\'' '\n' '\n' "\n\\&'".data tl
            (by decide), ih]
      · rw [replace2_cons_ne '\n' '\'' c "\n\\&'".data
          (replace2 '\n' '.' "\n\\&.".data (d :: rest)) hc, ih]

end Roffs

namespace Roffs

/-- `renderInlines` with the flag already cleared distributes over append. -/
theorem renderInlines_append_false (p : Apostrophes) (xs ys : List Inline) :
    renderInlines p (xs ++ ys) false
      = renderInlines p xs false ++ renderInlines p ys false := by
  induction xs with
  | nil => rfl
  | cons x xs ih => simp [renderInlines, ih]

/-- A single `?`-write to the `Vec` sink succeeds and appends the chunk. -/
theorem writeTry_vec (chunk buf : List Char) :
    writeTry vecWrite chunk buf = WOutcome.ok (buf ++ chunk) := rfl

/-- One span's writes to the `Vec` sink succeed and append exactly the
span's pure rendering. -/
theorem renderInlineW_vec (p : Apostrophes) (b : Bool) (i : Inline)
    (buf : List Char) :
    renderInlineW vecWrite p b i buf = WOutcome.ok (buf ++ renderInline p b i) := by
  cases i with
  | LineBreak => cases b <;> rfl
  | Bold t => rfl
  | Italic t => rfl
  | Roman t =>
      by_cases hg : (b && starts_with_cc (escapedText p t)) = true
      · simp [renderInlineW, renderInline, writeTry, writeUnwrap, vecWrite,
          WOutcome.bind, hg, List.append_assoc]
      · simp [renderInlineW, renderInline, writeTry, vecWrite, hg]

/-- The span loop's writes to the `Vec` sink succeed and append exactly
the pure rendering of the spans. -/
theorem renderInlinesW_vec (p : Apostrophes) (inls : List Inline) :
    ∀ (b : Bool) (buf : List Char),
      renderInlinesW vecWrite p inls b buf
        = WOutcome.ok (buf ++ renderInlines p inls b) := by
  induction inls with
  | nil => intro b buf; simp [renderInlinesW, renderInlines]
  | cons i rest ih =>
      intro b buf
      rw [renderInlinesW, renderInlineW_vec]
      simp [WOutcome.bind, ih, renderInlines, List.append_assoc]

/-- The argument loop's writes to the `Vec` sink succeed and append the
space-prefixed, space-quoted arguments. -/
theorem writeArgs_vec (args : List (List Char)) :
    ∀ buf : List Char,
      writeArgs vecWrite args buf
        = WOutcome.ok
            (buf ++ (args.map (fun a => ' ' :: escape_spaces a)).flatten) := by
  induction args with
  | nil => intro buf; simp [writeArgs]
  | cons a rest ih =>
      intro buf
      rw [writeArgs, writeTry_vec]
      simp [WOutcome.bind, ih, List.append_assoc]

/-- One line's writes to the `Vec` sink succeed and append exactly the
line's pure rendering. -/
theorem renderLineW_vec (p : Apostrophes) (l : Line) (buf : List Char) :
    renderLineW vecWrite p l buf = WOutcome.ok (buf ++ renderLine p l) := by
  cases l with
  | Control name args =>
      simp [renderLineW, writeTry_vec, WOutcome.bind, writeArgs_vec,
        renderLine, renderLineBody, List.append_assoc]
  | Text inls =>
      simp [renderLineW, renderInlinesW_vec, WOutcome.bind, writeTry_vec,
        renderLine, renderLineBody, List.append_assoc]

/-- The line loop's writes to the `Vec` sink succeed and append the
concatenated pure line renderings. -/
theorem writeLines_vec (p : Apostrophes) (lines : List Line) :
    ∀ buf : List Char,
      writeLines vecWrite p lines buf
        = WOutcome.ok (buf ++ (lines.map (renderLine p)).flatten) := by
  induction lines with
  | nil => intro buf; simp [writeLines]
  | cons l rest ih =>
      intro buf
      rw [writeLines, renderLineW_vec]
      simp [WOutcome.bind, ih, List.append_assoc]

/-- `to_writer` into the `Vec` sink succeeds with the preamble followed by
the concatenated line renderings. -/
theorem to_writer_vecWrite (r : Roff) :
    Roff.to_writer vecWrite [] r
      = WOutcome.ok
          (APOSTROPHE_PREABMLE
            ++ (r.lines.map (renderLine Apostrophes.Handle)).flatten) := by
  unfold Roff.to_writer
  rw [writeTry_vec]
  show writeLines vecWrite Apostrophes.Handle r.lines ([] ++ APOSTROPHE_PREABMLE)
    = _
  rw [writeLines_vec]
  simp

/-- Claim C3: for every text span, the inline escaping stage doubles every
backslash of the caller's text and turns every hyphen into `\-`, under both
policies; when the policy handles apostrophes it additionally turns every
apostrophe into the register reference `\*(Aq`, and under the raw policy
apostrophes pass through unchanged. Formally, the composition of
`str::replace` calls performed by `Line::render` equals the concatenation
of the spec's per-character table `escChar` over the text. -/
theorem C3_escape_inline_characterization (p : Apostrophes) (t : List Char) :
    inlineEscaped p t = (t.map (escChar p)).flatten := by
  induction t with
  | nil => rw [inlineEscaped_nil]; rfl
  | cons c t ih =>
      rw [inlineEscaped_cons, inlineEscaped_single, ih]
      simp

end Roffs

namespace Roffs

/-- Claim C1, counterexample: a Bold span whose escaped text starts with a
period, placed first on the line, does not receive the `\&` marker — the
rendered line `\fB.x\fR` contains no `&` at all, so the claim's "stated
for Roman, Italic and Bold spans alike" fails on Bold (and likewise on
Italic). -/
theorem C1_counterexample :
    starts_with_cc (escapedText Apostrophes.DontHandle ".x".data) = true
    ∧ renderLine Apostrophes.DontHandle (Line.Text [Inline.Bold ".x".data])
        = "\\fB.x\\fR\n".data
    ∧ '&' ∉ renderLine Apostrophes.DontHandle (Line.Text [Inline.Bold ".x".data]) := by
  decide

/-- Claim C1, amended: only a Roman span receives the `\&` prefix when it
is the very first span of the line and its escaped text starts with `.` or
`'`; a first Bold or Italic span is emitted as `\fB…\fR`/`\fI…\fR` with no
such guard (its output starts with a backslash, not with `.` or `'`). The
newline-internal rule holds for all three variants: the escaping pipeline
inserts `\&` between every embedded newline and an immediately following
`.` or `'` (`escape_leading_cc` equals the spec's single scan
`insertNewlineGuards`). -/
theorem C1_amended_guard_behavior (p : Apostrophes) (t : List Char) :
    (starts_with_cc (escapedText p t) = true →
      renderInline p true (Inline.Roman t) = '\\' :: '&' :: escapedText p t)
    ∧ renderInline p true (Inline.Bold t)
        = "\\fB".data ++ escapedText p t ++ "\\fR".data
    ∧ renderInline p true (Inline.Italic t)
        = "\\fI".data ++ escapedText p t ++ "\\fR".data
    ∧ escapedText p t = insertNewlineGuards (inlineEscaped p t) := by
  refine ⟨?_, rfl, rfl, escape_leading_cc_eq_insertNewlineGuards _⟩
  intro h
  have hdef : renderInline p true (Inline.Roman t)
      = (if true && starts_with_cc (escapedText p t) then "\\&".data else [])
        ++ escapedText p t := rfl
  rw [hdef, h]
  rfl

/-- Witness for C1: at the Roman span `".x"` under the raw policy, the
hypothesis holds and the `\&` prefix is emitted. -/
theorem C1_witness :
    renderInline Apostrophes.DontHandle true (Inline.Roman ".x".data)
      = '\\' :: '&' :: escapedText Apostrophes.DontHandle ".x".data :=
  (C1_amended_guard_behavior Apostrophes.DontHandle ".x".data).1 (by decide)

/-- Claim C2, counterexample: a text line consisting of exactly one
`LineBreak` renders as `.br` followed by two newlines (the newline of the
`.br` control line plus the text line's own terminating newline), not as
`.br` followed by one newline as the claim states. -/
theorem C2_counterexample :
    renderLine Apostrophes.DontHandle (Line.Text [Inline.LineBreak])
      = ".br\n\n".data
    ∧ renderLine Apostrophes.DontHandle (Line.Text [Inline.LineBreak])
      ≠ ".br\n".data := by
  decide

/-- Claim C2, amended: a text line consisting of exactly one `LineBreak`
renders as `.br` followed by a newline, followed by the line's terminating
newline (`.br\n\n` in total); a `LineBreak` that follows prior content on
the same text line emits a newline, then `.br`, then a newline. -/
theorem C2_amended_linebreak_rendering (p : Apostrophes)
    (pre rest : List Inline) :
    renderLine p (Line.Text [Inline.LineBreak]) = ".br\n\n".data
    ∧ (pre ≠ [] →
        renderInlines p (pre ++ Inline.LineBreak :: rest) true
          = renderInlines p pre true ++ "\n.br\n".data
            ++ renderInlines p rest false) := by
  constructor
  · rfl
  · intro hpre
    cases pre with
    | nil => exact absurd rfl hpre
    | cons x xs =>
        simp [renderInlines, renderInlines_append_false, renderInline,
          List.append_assoc]

/-- Witness for C2: a `LineBreak` after one Roman span emits
`\n.br\n` between the two renderings. -/
theorem C2_witness :
    renderInlines Apostrophes.DontHandle
        ([Inline.Roman "a".data] ++ Inline.LineBreak :: []) true
      = renderInlines Apostrophes.DontHandle [Inline.Roman "a".data] true
        ++ "\n.br\n".data ++ renderInlines Apostrophes.DontHandle [] false :=
  (C2_amended_linebreak_rendering Apostrophes.DontHandle
    [Inline.Roman "a".data] []).2 (by decide)

end Roffs

namespace Roffs

/-- Claim C4, counterexample: the raw entry point's output can contain the
preamble — for `forgedRoff` it is exactly the preamble — and the escaped
entry point's output can contain it twice, so neither "never contains" nor
"exactly once" holds for every document. -/
theorem C4_counterexample :
    Roff.to_roff forgedRoff = APOSTROPHE_PREABMLE
    ∧ Roff.render forgedRoff = APOSTROPHE_PREABMLE ++ APOSTROPHE_PREABMLE := by
  decide

/-- Claim C4, amended: the fully-escaped entry point prepends the two-line
preamble exactly once, in front of the concatenated line renderings — so it
forms the very first two lines of the output — and the raw entry point's
output is exactly the concatenated line renderings with no preamble
prepended; the preamble text can additionally occur only where the
document's own lines render to it. -/
theorem C4_amended_preamble (r : Roff) :
    Roff.render r
      = APOSTROPHE_PREABMLE
        ++ (r.lines.map (renderLine Apostrophes.Handle)).flatten
    ∧ (Roff.render r).take APOSTROPHE_PREABMLE.length = APOSTROPHE_PREABMLE
    ∧ APOSTROPHE_PREABMLE.count '\n' = 2
    ∧ Roff.to_roff r = (r.lines.map (renderLine Apostrophes.DontHandle)).flatten := by
  have h : Roff.render r
      = APOSTROPHE_PREABMLE
        ++ (r.lines.map (renderLine Apostrophes.Handle)).flatten := by
    unfold Roff.render
    rw [to_writer_vecWrite]
  refine ⟨h, ?_, by decide, rfl⟩
  rw [h]
  exact List.take_left _ _

/-- Claim C5: a control line renders as `.` followed by the name, then for
each argument a space and the argument — wrapped in double quotes exactly
when it contains a space — ending with the line's newline. -/
theorem C5_control_line_format (p : Apostrophes) (name : List Char)
    (args : List (List Char)) :
    renderLine p (Line.Control name args)
      = '.' :: (name
          ++ (args.map (fun a =>
              ' ' :: (if ' ' ∈ a then '"' :: (a ++ ['"']) else a))).flatten
          ++ ['\n'])
    ∧ (∀ a : List Char, ' ' ∈ a → escape_spaces a = '"' :: (a ++ ['"']))
    ∧ (∀ a : List Char, ' ' ∉ a → escape_spaces a = a)
    ∧ (renderLine p (Line.Control name args)).getLast? = some '\n' := by
  refine ⟨?_, ?_, ?_, ?_⟩
  · simp [renderLine, renderLineBody, escape_spaces]
  · intro a ha; simp [escape_spaces, ha]
  · intro a ha; simp [escape_spaces, ha]
  · simp [renderLine]

/-- Witness for C5: an argument with an embedded space is double-quoted. -/
theorem C5_witness :
    escape_spaces "a b".data = '"' :: ("a b".data ++ ['"']) :=
  (C5_control_line_format Apostrophes.DontHandle "x".data []).2.1
    "a b".data (by decide)

/-- Claim C6: a Roman span that immediately follows a `LineBreak` and whose
escaped text starts with `.` or `'` is emitted verbatim — without the `\&`
guard — even though the `.br` control line just ended a rendered line, so
the span's text starts the next rendered line (the prefix up to and
including the `LineBreak` ends with `.br` and a newline). -/
theorem C6_no_guard_after_linebreak (p : Apostrophes) (pre : List Inline)
    (t : List Char) (rest : List Inline)
    (h : starts_with_cc (escapedText p t) = true) :
    renderInlines p (pre ++ Inline.LineBreak :: Inline.Roman t :: rest) true
      = renderInlines p (pre ++ [Inline.LineBreak]) true
        ++ escapedText p t ++ renderInlines p rest false
    ∧ ∃ k, renderInlines p (pre ++ [Inline.LineBreak]) true
        = k ++ ".br\n".data := by
  constructor
  · cases pre with
    | nil =>
        simp [renderInlines, renderInline, List.append_assoc]
    | cons x xs =>
        simp [renderInlines, renderInlines_append_false, renderInline,
          List.append_assoc]
  · cases pre with
    | nil =>
        refine ⟨[], ?_⟩
        simp [renderInlines, renderInline]
    | cons x xs =>
        refine ⟨renderInline p true x ++ renderInlines p xs false ++ ['\n'], ?_⟩
        have hbr : ("\n.br\n".data : List Char) = ['\n'] ++ ".br\n".data := by
          decide
        simp [renderInlines, renderInlines_append_false, renderInline, hbr,
          List.append_assoc]

/-- Witness for C6: after a leading `LineBreak`, the Roman span `".x"` is
emitted with no guard at the start of the fresh rendered line. -/
theorem C6_witness :
    renderInlines Apostrophes.DontHandle
        ([] ++ Inline.LineBreak :: Inline.Roman ".x".data :: []) true
      = renderInlines Apostrophes.DontHandle ([] ++ [Inline.LineBreak]) true
        ++ escapedText Apostrophes.DontHandle ".x".data
        ++ renderInlines Apostrophes.DontHandle [] false
    ∧ ∃ k, renderInlines Apostrophes.DontHandle
        ([] ++ [Inline.LineBreak]) true = k ++ ".br\n".data :=
  C6_no_guard_after_linebreak Apostrophes.DontHandle [] ".x".data []
    (by decide)

end Roffs

namespace Roffs

/-- Folding a call sequence through the consuming builder and finalizing
yields the same document as folding it through the mutable builder. -/
theorem foldl_applyOp_build (ops : List BuildOp) :
    ∀ b : RoffBuilder,
      (ops.foldl RoffBuilder.applyOp b).build = ops.foldl Roff.applyOp b.build := by
  induction ops with
  | nil => intro b; rfl
  | cons op ops ih =>
      intro b
      rw [List.foldl_cons, List.foldl_cons, ih]
      congr 1
      cases op <;> rfl

/-- Claim C7, failing input: streaming the document `[Text([Roman(".x")])]`
to a sink whose second write fails makes `to_writer` reach the unwrapped
`\&` guard write (src/lib.rs:265) right after the preamble write; the sink
fails there and the code panics instead of returning the error — against
the claim's (and the spec's) "propagates that failure to the caller". The
same document streams fine into a `Vec`, where the guard write cannot
fail. -/
theorem C7_guard_write_panics :
    failSecondWrite 1 "\\&".data = Except.error ()
    ∧ Roff.to_writer failSecondWrite 0 dotXRoff = WOutcome.panicked ()
    ∧ Roff.to_writer vecWrite [] dotXRoff
        = WOutcome.ok (APOSTROPHE_PREABMLE ++ "\\&.x\n".data) := by
  refine ⟨rfl, ?_, ?_⟩ <;> decide

/-- Claim C8: for every append-call sequence, chaining it on the consuming
builder and finalizing renders byte-identically — under both the escaped
and the raw entry point — to applying the same sequence to the mutable
builder. -/
theorem C8_builder_equivalence (ops : List BuildOp) :
    Roff.render ((ops.foldl RoffBuilder.applyOp RoffBuilder.default).build)
      = Roff.render (ops.foldl Roff.applyOp Roff.default)
    ∧ Roff.to_roff ((ops.foldl RoffBuilder.applyOp RoffBuilder.default).build)
      = Roff.to_roff (ops.foldl Roff.applyOp Roff.default) := by
  have h := foldl_applyOp_build ops RoffBuilder.default
  exact ⟨by rw [h]; rfl, by rw [h]; rfl⟩

/-- Claim C9: on the text line `[Roman(""), Roman(".x")]` the rendered
output is `.x` followed by the newline — it begins with an unescaped
period (a control character), because the empty first span cleared the
at-line-start flag and the guard is only considered for the first span. -/
theorem C9_empty_first_span_defeats_guard :
    renderLine Apostrophes.DontHandle
        (Line.Text [Inline.Roman [], Inline.Roman ".x".data]) = ".x\n".data
    ∧ renderLine Apostrophes.Handle
        (Line.Text [Inline.Roman [], Inline.Roman ".x".data]) = ".x\n".data
    ∧ starts_with_cc ".x\n".data = true := by
  decide

/-- The inline escaping stage distributes over list append. -/
theorem inlineEscaped_append (p : Apostrophes) (a b : List Char) :
    inlineEscaped p (a ++ b) = inlineEscaped p a ++ inlineEscaped p b := by
  cases p <;>
    simp [inlineEscaped, escape_inline, escape_apostrophes, replace1_append]

/-- The hyphen's escaped form is the two characters `\-` under either
policy. -/
theorem escChar_hyphen (p : Apostrophes) : escChar p '-' = "\\-".data := by
  cases p <;> decide

/-- The backslash's escaped form is two backslashes under either policy. -/
theorem escChar_backslash (p : Apostrophes) : escChar p '\\' = "\\\\".data := by
  cases p <;> decide

/-- Claim C10: for every input text — split as any `pre`/`post` context
around the character in question — each hyphen contributes exactly the two
characters `\-`, each backslash exactly two backslashes, and each
apostrophe exactly the five characters `\*(Aq` under the `Handle` policy
(itself under the raw policy), so the backslashes introduced by the hyphen
escape and by the register reference appear verbatim and are never
themselves doubled; consequently the caller-supplied two-character text
`\-` escapes to the four characters `\\\-` instead of being preserved. -/
theorem C10_escape_order (p : Apostrophes) (pre post : List Char) :
    inlineEscaped p (pre ++ '-' :: post)
      = inlineEscaped p pre ++ "\\-".data ++ inlineEscaped p post
    ∧ inlineEscaped p (pre ++ '\\' :: post)
      = inlineEscaped p pre ++ "\\\\".data ++ inlineEscaped p post
    ∧ inlineEscaped Apostrophes.Handle (pre ++ '\'' :: post)
      = inlineEscaped Apostrophes.Handle pre ++ "\\*(Aq".data
        ++ inlineEscaped Apostrophes.Handle post
    ∧ inlineEscaped Apostrophes.DontHandle (pre ++ '\'' :: post)
      = inlineEscaped Apostrophes.DontHandle pre ++ ['\'']
        ++ inlineEscaped Apostrophes.DontHandle post
    ∧ inlineEscaped p "\\-".data = "\\\\\\-".data := by
  refine ⟨?_, ?_, ?_, ?_, ?_⟩
  · rw [inlineEscaped_append, inlineEscaped_cons, inlineEscaped_single,
      escChar_hyphen]
    simp [List.append_assoc]
  · rw [inlineEscaped_append, inlineEscaped_cons, inlineEscaped_single,
      escChar_backslash]
    simp [List.append_assoc]
  · rw [inlineEscaped_append, inlineEscaped_cons, inlineEscaped_single,
      show escChar Apostrophes.Handle '\'' = "\\*(Aq".data by decide]
    simp [List.append_assoc]
  · rw [inlineEscaped_append, inlineEscaped_cons, inlineEscaped_single,
      show escChar Apostrophes.DontHandle '\'' = ['\''] by decide]
    simp [List.append_assoc]
  · cases p <;> decide

end Roffs
